import Mathlib

/-!
# NodeChain block/chain engine — verification development

Shallow embedding of the NodeChain core (src/models/block.js and
src/models/blockchain.js) and proofs of its specified properties.

Modelling conventions:
* JavaScript numbers that the engine only ever treats as integers are
  modelled as `Int` (block index) or `Nat` (nonce, difficulty, lengths).
* `Date` values are modelled by the ISO-8601 string `toISOString()` would
  produce, supplied as an explicit parameter wherever the source calls
  `new Date()`.
* `crypto.createHash('sha256')` is modelled by a complete executable
  SHA-256 over byte lists (FIPS 180-4); all strings hashed by the engine
  are ASCII, so UTF-8 encoding coincides with `Char.toNat` per character.
* The unbounded `while (true)` mining loop is modelled with explicit fuel;
  `none` means the loop has not returned within the given number of
  iterations, and non-termination is `∀ fuel, … = none`.
-/

set_option maxRecDepth 1000000
set_option maxHeartbeats 4000000

namespace NodeChain

/-! ## SHA-256 (FIPS 180-4) over `Nat`, 32-bit words via explicit `% 2^32` -/

def mask32 (n : Nat) : Nat := n % 4294967296

def add32 (a b : Nat) : Nat := (a + b) % 4294967296

def rotr32 (x n : Nat) : Nat := ((x >>> n) ||| (x <<< (32 - n))) % 4294967296

def not32 (x : Nat) : Nat := x ^^^ 4294967295

def ch32 (x y z : Nat) : Nat := (x &&& y) ^^^ (not32 x &&& z)

def maj32 (x y z : Nat) : Nat := (x &&& y) ^^^ (x &&& z) ^^^ (y &&& z)

def bsig0 (x : Nat) : Nat := rotr32 x 2 ^^^ rotr32 x 13 ^^^ rotr32 x 22

def bsig1 (x : Nat) : Nat := rotr32 x 6 ^^^ rotr32 x 11 ^^^ rotr32 x 25

def ssig0 (x : Nat) : Nat := rotr32 x 7 ^^^ rotr32 x 18 ^^^ (x >>> 3)

def ssig1 (x : Nat) : Nat := rotr32 x 17 ^^^ rotr32 x 19 ^^^ (x >>> 10)

/-- The 64 SHA-256 round constants K₀…K₆₃. -/
def shaK : List Nat :=
  [1116352408, 1899447441, 3049323471, 3921009573, 961987163, 1508970993,
   2453635748, 2870763221, 3624381080, 310598401, 607225278, 1426881987,
   1925078388, 2162078206, 2614888103, 3248222580, 3835390401, 4022224774,
   264347078, 604807628, 770255983, 1249150122, 1555081692, 1996064986,
   2554220882, 2821834349, 2952996808, 3210313671, 3336571891, 3584528711,
   113926993, 338241895, 666307205, 773529912, 1294757372, 1396182291,
   1695183700, 1986661051, 2177026350, 2456956037, 2730485921, 2820302411,
   3259730800, 3345764771, 3516065817, 3600352804, 4094571909, 275423344,
   430227734, 506948616, 659060556, 883997877, 958139571, 1322822218,
   1537002063, 1747873779, 1955562222, 2024104815, 2227730452, 2361852424,
   2428436474, 2756734187, 3204031479, 3329325298]

/-- The running 8-word hash state (a..h in FIPS 180-4 notation). -/
structure ShaState where
  a : Nat
  b : Nat
  c : Nat
  d : Nat
  e : Nat
  f : Nat
  g : Nat
  h : Nat
deriving Repr, DecidableEq

/-- SHA-256 initial hash value H⁽⁰⁾. -/
def initState : ShaState :=
  ⟨1779033703, 3144134277, 1013904242, 2773480762,
   1359893119, 2600822924, 528734635, 1541459225⟩

/-- One round of the compression function, with round constant `kw` and
message-schedule word `w`. -/
def shaRound (st : ShaState) (kw : Nat) (w : Nat) : ShaState :=
  let t1 := add32 st.h (add32 (bsig1 st.e) (add32 (ch32 st.e st.f st.g) (add32 kw w)))
  let t2 := add32 (bsig0 st.a) (maj32 st.a st.b st.c)
  ⟨add32 t1 t2, st.a, st.b, st.c, add32 st.d t1, st.e, st.f, st.g⟩

/-- Run the rounds pairing constants with schedule words. -/
def shaRounds : List (Nat × Nat) → ShaState → ShaState
  | [], st => st
  | (kw, w) :: rest, st => shaRounds rest (shaRound st kw w)

/-- Extend the message schedule `k` more words; `ws` is the schedule so far,
newest word first. -/
def extendW : Nat → List Nat → List Nat
  | 0, ws => ws
  | k+1, ws =>
      extendW k
        (add32 (add32 (ssig1 (ws.getD 1 0)) (ws.getD 6 0))
          (add32 (ssig0 (ws.getD 14 0)) (ws.getD 15 0)) :: ws)

/-- The 64-word message schedule from a 16-word block. -/
def messageSchedule (w16 : List Nat) : List Nat :=
  (extendW 48 w16.reverse).reverse

/-- Compress one 512-bit block (16 big-endian 32-bit words) into the state. -/
def compress (st : ShaState) (block : List Nat) : ShaState :=
  let w := messageSchedule block
  let t := shaRounds (shaK.zip w) st
  ⟨add32 st.a t.a, add32 st.b t.b, add32 st.c t.c, add32 st.d t.d,
   add32 st.e t.e, add32 st.f t.f, add32 st.g t.g, add32 st.h t.h⟩

/-- Group bytes (most significant first) into big-endian 32-bit words. -/
def bytesToWords : List Nat → List Nat
  | b0 :: b1 :: b2 :: b3 :: rest =>
      (((b0 * 256 + b1) * 256 + b2) * 256 + b3) :: bytesToWords rest
  | _ => []

/-- Big-endian serialization of `n` into exactly `k` bytes. -/
def toBytesBE : Nat → Nat → List Nat
  | 0, _ => []
  | k+1, n => toBytesBE k (n / 256) ++ [n % 256]

/-- SHA-256 padding (FIPS 180-4 §5.1.1): append `0x80`, zero bytes, then the
64-bit big-endian bit length, reaching a multiple of 64 bytes. -/
def padBytes (msg : List Nat) : List Nat :=
  msg ++ 128 :: List.replicate ((119 - msg.length % 64) % 64) 0
    ++ toBytesBE 8 (msg.length * 8)

/-- Split a word list into `k` chunks of 16 words. -/
def chunkWords : Nat → List Nat → List (List Nat)
  | 0, _ => []
  | k+1, ws => ws.take 16 :: chunkWords k (ws.drop 16)

/-- The final SHA-256 state of a byte-list message. -/
def sha256State (msg : List Nat) : ShaState :=
  let ws := bytesToWords (padBytes msg)
  (chunkWords (ws.length / 16) ws).foldl compress initState

def hexDigit (n : Nat) : Char := Char.ofNat (if n < 10 then 48 + n else 87 + n)

/-- The last `k` hex digits of `n`, most significant first. -/
def hexChars : Nat → Nat → List Char
  | 0, _ => []
  | k+1, n => hexChars k (n / 16) ++ [hexDigit (n % 16)]

/-- A 32-bit word as 8 lowercase hex characters. -/
def hex8 (n : Nat) : String := String.mk (hexChars 8 n)

/-- The 64-character lowercase hex digest of a final state. -/
def digestHex (st : ShaState) : String :=
  hex8 st.a ++ hex8 st.b ++ hex8 st.c ++ hex8 st.d ++
    hex8 st.e ++ hex8 st.f ++ hex8 st.g ++ hex8 st.h

/-- The bytes of an ASCII string (every string the engine hashes is ASCII,
so UTF-8 encoding is `Char.toNat` per character). -/
def strBytes (s : String) : List Nat := s.data.map Char.toNat

/-- `crypto.createHash('sha256').update(s).digest('hex')`. -/
def sha256Hex (s : String) : String := digestHex (sha256State (strBytes s))

/-! ## Payloads and their JavaScript serialization

Block payloads are JSON-shaped values built from strings, (integer)
numbers and objects, the shapes the application actually stores.
`jsonStringify` models `JSON.stringify` on these shapes: objects are
emitted in field order (JavaScript property insertion order), strings
are quoted verbatim (no payload in this development needs escaping), and
numbers print in integer form. -/

inductive Json where
  | str (s : String)
  | num (n : Int)
  | obj (fields : List (String × Json))
deriving Repr

mutual

/-- `JSON.stringify` on the modelled value shapes: insertion-ordered
object fields, quoted strings, integer number formatting. -/
def jsonStringify : Json → String
  | .str s => "\"" ++ s ++ "\""
  | .num n => toString n
  | .obj fs => "\x7b" ++ fieldsStringify fs ++ "\x7d"

/-- Comma-separated `"key":value` members, in list (insertion) order. -/
def fieldsStringify : List (String × Json) → String
  | [] => ""
  | [(k, v)] => "\"" ++ k ++ "\":" ++ jsonStringify v
  | (k, v) :: rest =>
      "\"" ++ k ++ "\":" ++ jsonStringify v ++ "," ++ fieldsStringify rest

end

/-! ## Block (src/models/block.js)

A `Block` as the constructor leaves it: the five hashed fields plus the
stored `difficulty` and the mined `hash`. `timestamp` is the ISO string
of the `new Date()` taken at construction. -/

structure Block where
  index : Int
  timestamp : String
  data : Json
  previousHash : String
  nonce : Nat
  difficulty : Nat
  hash : String
deriving Repr

/-- The string `this.index + this.timestamp.toISOString() +
JSON.stringify(this.data) + this.previousHash + this.nonce` hashed by
`calculateHash` (JavaScript `number + string` concatenation prints the
number in its integer form, matching `toString` on `Int`/`Nat`). -/
def blockString (index : Int) (timestamp : String) (data : Json)
    (previousHash : String) (nonce : Nat) : String :=
  toString index ++ timestamp ++ jsonStringify data ++ previousHash ++ toString nonce

/-- `Block.calculateHash()`: SHA-256 hex digest of the block string built
from the block's current field values. -/
def calculateHash (b : Block) : String :=
  sha256Hex (blockString b.index b.timestamp b.data b.previousHash b.nonce)

/-- `Array(difficulty + 1).join('0')`: the string of `difficulty` zeros the
mined digest's prefix is compared against. -/
def targetString (difficulty : Nat) : String :=
  String.mk (List.replicate difficulty '0')

/-- `Block.mineBlock()`'s `while (true)` loop, from a given starting nonce,
with explicit fuel bounding the number of iterations observed: `some
(nonce, hash)` is the return at the first nonce (from the start) whose
digest's first `difficulty` characters equal the target (JavaScript
`substring(0, difficulty)` is `String.take`); `none` means the loop has
not returned within `fuel` iterations. -/
def mineFrom (index : Int) (timestamp : String) (data : Json)
    (previousHash : String) (difficulty : Nat) : Nat → Nat → Option (Nat × String)
  | _, 0 => none
  | nonce, fuel + 1 =>
      let h := sha256Hex (blockString index timestamp data previousHash nonce)
      if h.take difficulty = targetString difficulty then some (nonce, h)
      else mineFrom index timestamp data previousHash difficulty (nonce + 1) fuel

/-- The `Block` constructor: record the fields (with `nonce = 0`,
`timestamp` the current time `now`), then mine, storing the final nonce
and the winning hash. The constructor performs no input validation. -/
def mkBlock (index : Int) (data : Json) (previousHash : String)
    (difficulty : Nat) (now : String) (fuel : Nat) : Option Block :=
  (mineFrom index now data previousHash difficulty 0 fuel).map
    (fun r => ⟨index, now, data, previousHash, r.1, difficulty, r.2⟩)

/-! ## Blockchain (src/models/blockchain.js) -/

structure Blockchain where
  chain : List Block
  difficulty : Nat
deriving Repr

/-- The fixed genesis payload, with `metadata.timestamp` the ISO string of
the `new Date()` taken inside `createGenesisBlock`. -/
def genesisData (metaTimestamp : String) : Json :=
  .obj [("sender", .str "Genesis"), ("receiver", .str "Genesis"),
    ("amount", .num 0),
    ("metadata", .obj [("timestamp", .str metaTimestamp),
      ("transactionId", .str "genesis_block")])]

/-- The `Blockchain` constructor: set the difficulty and create the genesis
block (`new Block(0, genesisData, '0', difficulty)`) as the only element
of the chain. The two `new Date()` calls (payload metadata, block
timestamp) are the two string parameters. -/
def mkBlockchain (difficulty : Nat) (metaTimestamp blockTimestamp : String)
    (fuel : Nat) : Option Blockchain :=
  (mkBlock 0 (genesisData metaTimestamp) "0" difficulty blockTimestamp fuel).map
    (fun g => ⟨[g], difficulty⟩)

/-- `getLatestBlock()`: `this.chain[this.chain.length - 1]` (`none` models
the `undefined` read on an empty chain). -/
def getLatestBlock (bc : Blockchain) : Option Block :=
  bc.chain.getLast?

/-- `addBlock(data)`: read the latest block, build
`new Block(prev.index + 1, data, prev.hash, this.difficulty)` and push it. -/
def addBlock (bc : Blockchain) (data : Json) (now : String) (fuel : Nat) :
    Option Blockchain :=
  match getLatestBlock bc with
  | none => none
  | some prev =>
      (mkBlock (prev.index + 1) data prev.hash bc.difficulty now fuel).map
        (fun b => ⟨bc.chain ++ [b], bc.difficulty⟩)

/-- A finite sequence of `addBlock` calls, each with its payload and its
construction-time timestamp. -/
def addBlocks (bc : Blockchain) : List (Json × String) → Nat → Option Blockchain
  | [], _ => some bc
  | (data, now) :: rest, fuel =>
      match addBlock bc data now fuel with
      | none => none
      | some bc2 => addBlocks bc2 rest fuel

/-- The three per-block checks of `isChainValid`'s loop body for
`cur = chain[i]`, `prev = chain[i-1]`: recomputed-hash check, link check,
difficulty-prefix check (against the chain's `this.difficulty`). Since the
loop returns `false` at the first failing check, its outcome on one block
is the conjunction. -/
def checkBlock (difficulty : Nat) (prev cur : Block) : Bool :=
  decide (cur.hash = calculateHash cur) &&
    decide (cur.previousHash = prev.hash) &&
    decide (cur.hash.take difficulty = targetString difficulty)

/-- `isChainValid`'s loop from `i = 1`: check each block against its
predecessor, `false` at the first failure, `true` past the end. -/
def validFrom (difficulty : Nat) : Block → List Block → Bool
  | _, [] => true
  | prev, cur :: rest => checkBlock difficulty prev cur && validFrom difficulty cur rest

/-- `isChainValid()`: the loop starts at index 1, so the genesis block is
only ever read as `chain[i - 1]`; an empty or single-block chain is
vacuously valid. -/
def isChainValid (bc : Blockchain) : Bool :=
  match bc.chain with
  | [] => true
  | g :: rest => validFrom bc.difficulty g rest

/-- A JavaScript value arriving as a lookup query: an (integer) number, a
string, `null`, or `undefined` — the shapes the lookups' guards
distinguish via `typeof` and truthiness. -/
inductive JsValue where
  | num (n : Int)
  | str (s : String)
  | nullV
  | undefinedV
deriving Repr

/-- `getBlockByIndex(index)`: `null` for a non-number or an out-of-range
number, otherwise `this.chain[index]`. -/
def getBlockByIndex (bc : Blockchain) (q : JsValue) : Option Block :=
  match q with
  | .num i =>
      if i < 0 ∨ (bc.chain.length : Int) ≤ i then none
      else bc.chain.get? i.toNat
  | _ => none

/-- `getBlockByHash(hash)`: `null` for a falsy or non-string query (`''`,
`null`, `undefined`, any number), otherwise the first block of the scan
whose stored digest equals the query, `null` when none matches. -/
def getBlockByHash (bc : Blockchain) (q : JsValue) : Option Block :=
  match q with
  | .str s => if s = "" then none else bc.chain.find? (fun b => b.hash == s)
  | _ => none

/-- `getBlockCount()`: `this.chain.length`. -/
def getBlockCount (bc : Blockchain) : Nat :=
  bc.chain.length

/-! ## Field-replacement helpers and concrete instances

`withHash` / `withPrev` / `withData` model overwriting one stored field of
a block in place (`blockchain.chain[i].hash = …`, as the repository's own
tamper tests do), and `setBlock` the resulting chain. The concrete chains
below use difficulty 0 (where every block mines at nonce 0) or difficulty
1 with timestamps chosen so each digest already starts with '0' at nonce
0, keeping the closed checks cheap to evaluate. -/

def withHash (b : Block) (h : String) : Block :=
  ⟨b.index, b.timestamp, b.data, b.previousHash, b.nonce, b.difficulty, h⟩

def withPrev (b : Block) (p : String) : Block :=
  ⟨b.index, b.timestamp, b.data, p, b.nonce, b.difficulty, b.hash⟩

def withData (b : Block) (d : Json) : Block :=
  ⟨b.index, b.timestamp, d, b.previousHash, b.nonce, b.difficulty, b.hash⟩

def setBlock (bc : Blockchain) (i : Nat) (b : Block) : Blockchain :=
  ⟨bc.chain.set i b, bc.difficulty⟩

/-- `mineBlock`'s loop never returns for these construction inputs: no
iteration bound suffices, from any starting nonce. -/
def neverMines (index : Int) (ts : String) (data : Json) (prev : String)
    (d : Nat) : Prop :=
  ∀ fuel nonce, mineFrom index ts data prev d nonce fuel = none

def payloadA : Json := .obj [("a", .num 1)]

def payloadB : Json := .obj [("b", .num 2)]

def emptyChain : Blockchain := ⟨[], 0⟩

def blankBlock : Block := ⟨0, "", payloadA, "", 0, 0, ""⟩

/-- Genesis-only chain at difficulty 0. -/
def chain0g : Blockchain :=
  (mkBlockchain 0 "2024-01-15T10:30:00.000Z" "2024-01-15T10:30:00.001Z" 1).getD emptyChain

/-- `chain0g` plus one appended block. -/
def chain0 : Blockchain :=
  (addBlocks chain0g [(payloadA, "2024-01-15T10:30:00.002Z")] 1).getD emptyChain

def chain0block1 : Block := (chain0.chain.get? 1).getD blankBlock

/-- Three payload/timestamp pairs to append for the chain-growth instance. -/
def appends3 : List (Json × String) :=
  [(payloadA, "2024-01-15T10:30:00.003Z"), (payloadB, "2024-01-15T10:30:00.004Z"),
   (payloadA, "2024-01-15T10:30:00.005Z")]

/-- `chain0g` plus three appended blocks. -/
def chain3 : Blockchain := (addBlocks chain0g appends3 1).getD emptyChain

/-- Genesis-only chain at difficulty 1; its block timestamp is chosen so
the nonce-0 digest already starts with '0'. -/
def chain1g : Blockchain :=
  (mkBlockchain 1 "2024-01-15T10:30:00.000Z" "2024-01-15T10:30:01.016Z" 1).getD emptyChain

/-- `chain1g` plus one appended block, again mining at nonce 0. -/
def chain1 : Blockchain :=
  (addBlocks chain1g [(payloadA, "2024-01-15T10:30:02.000Z")] 1).getD emptyChain

/-- `chain0` with the genesis block's stored digest overwritten. -/
def chain0badGenesis : Blockchain :=
  setBlock chain0 0 (withHash ((chain0.chain.get? 0).getD blankBlock) "tampered")

def fieldsAB : List (String × Json) := [("a", .num 1), ("b", .num 2)]

def fieldsBA : List (String × Json) := [("b", .num 2), ("a", .num 1)]

/-- Two blocks agreeing on index, timestamp, previousDigest and nonce whose
payloads bind the same values to the same keys in different insertion
orders. -/
def blockAB : Block := ⟨1, "2024-01-15T10:30:00.000Z", .obj fieldsAB, "p", 0, 1, ""⟩

def blockBA : Block := ⟨1, "2024-01-15T10:30:00.000Z", .obj fieldsBA, "p", 0, 1, ""⟩

/-- Two blocks agreeing on all five hashed fields but differing in stored
difficulty and stored hash. -/
def blockW1 : Block := ⟨2, "2024-01-15T10:30:00.000Z", payloadA, "q", 5, 1, "h1"⟩

def blockW2 : Block := ⟨2, "2024-01-15T10:30:00.000Z", payloadA, "q", 5, 9, "h2"⟩

/-- A block sharing `blankBlock`'s stored hash but no other field. -/
def blockAlt : Block := ⟨5, "x", payloadB, "p", 9, 2, ""⟩

/-! ## Lemmas: digest length and the mined-digest specification -/

theorem hexChars_length (k : Nat) : ∀ n, (hexChars k n).length = k := by
  induction k with
  | zero => intro n; rfl
  | succ k ih => intro n; simp [hexChars, ih]

theorem hex8_length (n : Nat) : (hex8 n).length = 8 := by
  simp [hex8, hexChars_length]

theorem sha256Hex_length (s : String) : (sha256Hex s).length = 64 := by
  simp [sha256Hex, digestHex, hex8_length]

theorem targetString_length (d : Nat) : (targetString d).length = d := by
  simp [targetString]

theorem take_ne_of_short (s t : String) (n : Nat) (hs : s.length < n)
    (ht : t.length = n) : s.take n ≠ t := by
  intro h
  have hl : (s.take n).length = t.length := by rw [h]
  rw [String.take_eq] at hl
  simp only [String.length_mk, List.length_take] at hl
  rw [String.length_data] at hl
  omega

theorem mineFrom_some {index : Int} {ts : String} {data : Json} {prev : String}
    {d : Nat} : ∀ {fuel nonce n : Nat} {h : String},
    mineFrom index ts data prev d nonce fuel = some (n, h) →
      h = sha256Hex (blockString index ts data prev n) ∧
        h.take d = targetString d ∧ nonce ≤ n := by
  intro fuel
  induction fuel with
  | zero => intro nonce n h he; simp [mineFrom] at he
  | succ fuel ih =>
      intro nonce n h he
      rw [mineFrom] at he
      by_cases hc : (sha256Hex (blockString index ts data prev nonce)).take d = targetString d
      · simp only [hc, if_pos] at he
        obtain ⟨h1, h2⟩ := Prod.mk.injEq .. ▸ Option.some.injEq .. ▸ he
        subst h1
        subst h2
        exact ⟨rfl, hc, Nat.le_refl _⟩
      · simp only [hc, if_neg, not_false_iff] at he
        obtain ⟨h1, h2, h3⟩ := ih he
        exact ⟨h1, h2, Nat.le_of_succ_le h3⟩

theorem mineFrom_isSome {index : Int} {ts : String} {data : Json}
    {prev : String} {d n : Nat}
    (hn : (sha256Hex (blockString index ts data prev n)).take d = targetString d) :
    ∀ fuel nonce, nonce ≤ n → n < nonce + fuel →
      (mineFrom index ts data prev d nonce fuel).isSome := by
  intro fuel
  induction fuel with
  | zero => intro nonce h1 h2; omega
  | succ fuel ih =>
      intro nonce h1 h2
      rw [mineFrom]
      by_cases hc : (sha256Hex (blockString index ts data prev nonce)).take d = targetString d
      · simp [hc]
      · have hne : nonce ≠ n := fun he => hc (he ▸ hn)
        simp only [hc, if_neg, not_false_iff]
        exact ih (nonce + 1) (by omega) (by omega)

theorem mkBlock_some {index : Int} {data : Json} {prev : String} {d : Nat}
    {now : String} {fuel : Nat} {b : Block}
    (h : mkBlock index data prev d now fuel = some b) :
    b.index = index ∧ b.timestamp = now ∧ b.data = data ∧
      b.previousHash = prev ∧ b.difficulty = d ∧
      b.hash = calculateHash b ∧ b.hash.take d = targetString d := by
  unfold mkBlock at h
  cases he : mineFrom index now data prev d 0 fuel with
  | none => rw [he] at h; simp at h
  | some r =>
      rw [he] at h
      simp only [Option.map_some'] at h
      obtain ⟨hh, hp, -⟩ := mineFrom_some he
      cases hb : b
      rw [hb] at h
      cases h
      exact ⟨rfl, rfl, rfl, rfl, rfl, by simpa [calculateHash] using hh, by rw [hh] at hp ⊢; exact hp⟩

/-! ## Lemmas: chain shape and validity -/

theorem getLast?_cons_eq (g : Block) : ∀ rest : List Block,
    (g :: rest).getLast? = some (rest.getLast?.getD g) := by
  intro rest
  induction rest generalizing g with
  | nil => rfl
  | cons x xs ih => simp [List.getLast?_cons_cons, ih x]

theorem validFrom_concat (d : Nat) (b : Block) : ∀ (g : Block) (rest : List Block),
    validFrom d g (rest ++ [b]) = (validFrom d g rest && checkBlock d (rest.getLast?.getD g) b) := by
  intro g rest
  induction rest generalizing g with
  | nil => simp [validFrom]
  | cons x xs ih => simp [validFrom, ih x, getLast?_cons_eq, Bool.and_assoc]

theorem addBlock_some {bc : Blockchain} {data : Json} {now : String}
    {fuel : Nat} {bc' : Blockchain} {p : Block} (hp : getLatestBlock bc = some p)
    (h : addBlock bc data now fuel = some bc') :
    ∃ b, bc'.chain = bc.chain ++ [b] ∧ bc'.difficulty = bc.difficulty ∧
      b.index = p.index + 1 ∧ b.previousHash = p.hash ∧ b.hash = calculateHash b ∧
      b.hash.take bc.difficulty = targetString bc.difficulty := by
  have heq : addBlock bc data now fuel =
      Option.map (fun b => (⟨bc.chain ++ [b], bc.difficulty⟩ : Blockchain))
        (mkBlock (p.index + 1) data p.hash bc.difficulty now fuel) := by
    unfold addBlock
    rw [hp]
  rw [heq] at h
  cases he : mkBlock (p.index + 1) data p.hash bc.difficulty now fuel with
  | none => rw [he] at h; simp at h
  | some nb =>
      rw [he] at h
      simp only [Option.map_some'] at h
      obtain ⟨h1, -, -, h4, -, h6, h7⟩ := mkBlock_some he
      cases h
      exact ⟨nb, rfl, rfl, h1, h4, h6, h7⟩

theorem isChainValid_eq (bc : Blockchain) (g : Block) (rest : List Block)
    (h : bc.chain = g :: rest) : isChainValid bc = validFrom bc.difficulty g rest := by
  obtain ⟨ch, d⟩ := bc
  simp only at h
  subst h
  rfl

theorem isChainValid_addBlock {bc : Blockchain} {data : Json} {now : String}
    {fuel : Nat} {bc' : Blockchain} (hne : bc.chain ≠ [])
    (hv : isChainValid bc = true) (h : addBlock bc data now fuel = some bc') :
    isChainValid bc' = true ∧ bc'.chain ≠ [] := by
  obtain ⟨ch, diff⟩ := bc
  cases ch with
  | nil => exact absurd rfl hne
  | cons g rest =>
      have hp : getLatestBlock ⟨g :: rest, diff⟩ = some (rest.getLast?.getD g) :=
        getLast?_cons_eq g rest
      obtain ⟨b, hchain, hdiff, hidx, hprev, hhash, htake⟩ := addBlock_some hp h
      rw [isChainValid_eq ⟨g :: rest, diff⟩ g rest rfl] at hv
      refine ⟨?_, ?_⟩
      · rw [isChainValid_eq bc' g (rest ++ [b]) (by rw [hchain]; rfl)]
        rw [hdiff]
        simp only [validFrom_concat]
        simp [hv, checkBlock, hprev, ← hhash, htake]
      · rw [hchain]
        simp

theorem isChainValid_addBlocks : ∀ (l : List (Json × String)) (bc : Blockchain)
    (fuel : Nat) (bc' : Blockchain), bc.chain ≠ [] → isChainValid bc = true →
    addBlocks bc l fuel = some bc' → isChainValid bc' = true ∧ bc'.chain ≠ [] := by
  intro l
  induction l with
  | nil =>
      intro bc fuel bc' hne hv h
      rw [addBlocks] at h
      cases h
      exact ⟨hv, hne⟩
  | cons x xs ih =>
      intro bc fuel bc' hne hv h
      obtain ⟨xd, xn⟩ := x
      rw [addBlocks] at h
      cases hstep : addBlock bc xd xn fuel with
      | none => rw [hstep] at h; simp at h
      | some bc2 =>
          rw [hstep] at h
          obtain ⟨hv2, hne2⟩ := isChainValid_addBlock hne hv hstep
          exact ih bc2 fuel bc' hne2 hv2 h

theorem mkBlockchain_some {d : Nat} {tm tb : String} {fuel : Nat}
    {c : Blockchain} (h : mkBlockchain d tm tb fuel = some c) :
    ∃ g, c.chain = [g] ∧ c.difficulty = d ∧ g.index = 0 ∧ g.previousHash = "0" ∧
      g.hash = calculateHash g ∧ g.hash.take d = targetString d := by
  unfold mkBlockchain at h
  cases he : mkBlock 0 (genesisData tm) "0" d tb fuel with
  | none => rw [he] at h; simp at h
  | some g =>
      rw [he] at h
      simp only [Option.map_some'] at h
      obtain ⟨h1, -, -, h4, -, h6, h7⟩ := mkBlock_some he
      cases h
      exact ⟨g, rfl, rfl, h1, h4, h6, h7⟩

/-! ## Lemmas: per-pair reading of the validation loop -/

theorem validFrom_true_pair {d : Nat} : ∀ {g : Block} {l : List Block},
    validFrom d g l = true → ∀ (i : Nat) (prev cur : Block),
      (g :: l).get? i = some prev → l.get? i = some cur →
      checkBlock d prev cur = true := by
  intro g l
  induction l generalizing g with
  | nil => intro hv i prev cur hp hc; simp at hc
  | cons x xs ih =>
      intro hv i prev cur hp hc
      rw [validFrom, Bool.and_eq_true] at hv
      cases i with
      | zero =>
          simp at hp hc
          subst hp
          subst hc
          exact hv.1
      | succ j =>
          simp only [List.get?_cons_succ] at hp hc
          exact ih hv.2 j prev cur hp hc

theorem validFrom_false_pair {d : Nat} : ∀ {g : Block} {l : List Block}
    (i : Nat) {prev cur : Block}, (g :: l).get? i = some prev →
      l.get? i = some cur → checkBlock d prev cur = false →
      validFrom d g l = false := by
  intro g l
  induction l generalizing g with
  | nil => intro i prev cur hp hc hf; simp at hc
  | cons x xs ih =>
      intro i prev cur hp hc hf
      rw [validFrom]
      cases i with
      | zero =>
          simp at hp hc
          subst hp
          subst hc
          simp [hf]
      | succ j =>
          simp only [List.get?_cons_succ] at hp hc
          rw [ih j hp hc hf]
          simp

/-! ## Lemmas: replacing one non-genesis block -/

theorem tamper_invalid_aux {bc : Blockchain} {i : Nat} {orig : Block}
    (hi : 1 ≤ i) (horig : bc.chain.get? i = some orig)
    (hv : isChainValid bc = true) {b2 : Block}
    (hbad : ∀ prev : Block, checkBlock bc.difficulty prev orig = true →
        checkBlock bc.difficulty prev b2 = false) :
    isChainValid (setBlock bc i b2) = false := by
  obtain ⟨ch, d⟩ := bc
  cases ch with
  | nil => simp at horig
  | cons g l =>
      obtain ⟨j, rfl⟩ : ∃ j, i = j + 1 := ⟨i - 1, by omega⟩
      have horigl : l.get? j = some orig := horig
      have hjlen : j < l.length := by
        obtain ⟨h, -⟩ := List.get?_eq_some.mp horigl
        exact h
      have hjlen2 : j < (g :: l).length := by simp; omega
      have hprevj := List.get?_eq_get hjlen2
      have hvf : validFrom d g l = true := hv
      have hcheck : checkBlock d ((g :: l).get ⟨j, hjlen2⟩) orig = true :=
        validFrom_true_pair hvf j _ orig hprevj horigl
      have hfalse := hbad _ hcheck
      have hgoal : isChainValid ⟨g :: l.set j b2, d⟩ = false := by
        rw [isChainValid_eq ⟨g :: l.set j b2, d⟩ g (l.set j b2) rfl]
        refine validFrom_false_pair j ?_ ?_ hfalse
        · show ((g :: l).set (j + 1) b2).get? j = some ((g :: l).get ⟨j, hjlen2⟩)
          rw [List.get?_eq_getElem?, List.getElem?_set_ne (by omega)]
          rw [← List.get?_eq_getElem?]
          exact hprevj
        · rw [List.get?_eq_getElem?]
          exact List.getElem?_set_self hjlen
      exact hgoal

/-! ## The claims -/

/-- Claim C1 (counterexample to the claim as stated): mining does not
terminate for every difficulty d ≥ 1. At difficulty 65 — with concrete
construction inputs index 0, a fixed timestamp, payload `\x7b"a":1\x7d` and
previousDigest "0" — the loop never returns within any number of
iterations from any starting nonce: every digest has exactly 64 hex
characters, so its 65-character prefix can never equal the 65-zero
target. -/
theorem C1_counterexample :
    neverMines 0 "2024-01-15T10:30:00.000Z" payloadA "0" 65 := by
  intro fuel
  induction fuel with
  | zero => intro nonce; rfl
  | succ fuel ih =>
      intro nonce
      rw [mineFrom]
      have hne : (sha256Hex
          (blockString 0 "2024-01-15T10:30:00.000Z" payloadA "0" nonce)).take 65 ≠
            targetString 65 :=
        take_ne_of_short _ _ 65 (by rw [sha256Hex_length]; omega) (targetString_length 65)
      simp [hne, ih]

/-- Claim C1 (amended): for every payload, difficulty d ≥ 1 and
construction inputs, if some nonce yields a digest whose first d hex
characters are all '0' (possible only for d ≤ 64), then mining terminates
— some iteration bound suffices — and the block returned by the
constructor stores exactly the SHA-256 hex digest of the canonical
serialization of (index, createdAt, payload, previousDigest, final
nonce), whose first d hex characters are all '0'. -/
theorem C1_mining_correct (index : Int) (ts : String) (data : Json)
    (prev : String) (d : Nat) (_hd : 1 ≤ d) (n : Nat)
    (hn : (sha256Hex (blockString index ts data prev n)).take d = targetString d) :
    ∃ fuel b, mkBlock index data prev d ts fuel = some b ∧
      b.hash = sha256Hex (blockString b.index b.timestamp b.data b.previousHash b.nonce) ∧
      b.hash.take d = targetString d := by
  have hs := mineFrom_isSome hn (n + 1) 0 (Nat.zero_le n) (by omega)
  cases he : mineFrom index ts data prev d 0 (n + 1) with
  | none => rw [he] at hs; simp at hs
  | some r =>
      obtain ⟨rn, rh⟩ := r
      obtain ⟨h1, h2, -⟩ := mineFrom_some he
      refine ⟨n + 1, ⟨index, ts, data, prev, rn, d, rh⟩, ?_, ?_, ?_⟩
      · rw [mkBlock, he]
        rfl
      · exact h1
      · exact h2

/-- Closed instance for C1: at difficulty 1 with a concrete timestamp,
nonce 0 already satisfies the prefix condition, and mining returns a
block with the specified digest. -/
theorem C1_witness :
    (1 ≤ 1 ∧
      (sha256Hex (blockString 0 "2024-01-15T10:30:00.014Z" payloadA "0" 0)).take 1 =
        targetString 1) ∧
    (∃ fuel b, mkBlock 0 payloadA "0" 1 "2024-01-15T10:30:00.014Z" fuel = some b ∧
      b.hash = sha256Hex (blockString b.index b.timestamp b.data b.previousHash b.nonce) ∧
      b.hash.take 1 = targetString 1) :=
  ⟨⟨by decide, by decide⟩,
    C1_mining_correct 0 "2024-01-15T10:30:00.014Z" payloadA "0" 1 (by decide) 0 (by decide)⟩

/-- Claim C2: a chain constructed at difficulty d ≥ 1 and grown by any
finite sequence of appends, with no other mutation, validates:
`isChainValid` returns true — and since validation is a pure function of
the unmodified chain in this embedding, repeated calls return true every
time; the sequence may be empty, covering the single-genesis chain. -/
theorem C2_validate_built_chain (d : Nat) (_hd : 1 ≤ d) (tm tb : String)
    (fuelG : Nat) (c0 : Blockchain) (h0 : mkBlockchain d tm tb fuelG = some c0)
    (l : List (Json × String)) (fuelA : Nat) (c : Blockchain)
    (hl : addBlocks c0 l fuelA = some c) : isChainValid c = true := by
  obtain ⟨g, hg, -, -, -, -, -⟩ := mkBlockchain_some h0
  have hne : c0.chain ≠ [] := by rw [hg]; simp
  have hv0 : isChainValid c0 = true := by
    rw [isChainValid_eq c0 g [] hg]
    rfl
  exact (isChainValid_addBlocks l c0 fuelA c hne hv0 hl).1

/-- Closed instance for C2: a difficulty-1 chain (timestamps chosen so
each block mines at nonce 0) built by construction plus one append
validates. -/
theorem C2_witness :
    1 ≤ 1 ∧
    mkBlockchain 1 "2024-01-15T10:30:00.000Z" "2024-01-15T10:30:01.016Z" 1 = some chain1g ∧
    addBlocks chain1g [(payloadA, "2024-01-15T10:30:02.000Z")] 1 = some chain1 ∧
    isChainValid chain1 = true :=
  ⟨by decide, rfl, rfl,
    C2_validate_built_chain 1 (by decide) "2024-01-15T10:30:00.000Z"
      "2024-01-15T10:30:01.016Z" 1 chain1g rfl
      [(payloadA, "2024-01-15T10:30:02.000Z")] 1 chain1 rfl⟩

/-- Claim C3: on a valid chain, overwriting a non-genesis block's stored
digest (with any different value), or its stored previousDigest (with any
different value), or its payload — the last under the collision-freeness
modelling of SHA-256, supplied as the hypothesis that the tampered
block's recomputed digest differs from the original's — makes
`isChainValid` return false. -/
theorem C3_tamper_detected (bc : Blockchain) (i : Nat) (orig : Block)
    (hi : 1 ≤ i) (horig : bc.chain.get? i = some orig)
    (hv : isChainValid bc = true) :
    (∀ h2, h2 ≠ orig.hash →
        isChainValid (setBlock bc i (withHash orig h2)) = false) ∧
    (∀ p2, p2 ≠ orig.previousHash →
        isChainValid (setBlock bc i (withPrev orig p2)) = false) ∧
    (∀ d2, calculateHash (withData orig d2) ≠ calculateHash orig →
        isChainValid (setBlock bc i (withData orig d2)) = false) := by
  refine ⟨?_, ?_, ?_⟩
  · intro h2 hne
    refine tamper_invalid_aux hi horig hv ?_
    intro prev hcheck
    simp only [checkBlock, Bool.and_eq_true, decide_eq_true_eq] at hcheck
    obtain ⟨⟨c1, -⟩, -⟩ := hcheck
    have hx : ¬((withHash orig h2).hash = calculateHash (withHash orig h2)) := by
      show ¬(h2 = calculateHash orig)
      rw [← c1]
      exact hne
    simp [checkBlock, hx]
  · intro p2 hne
    refine tamper_invalid_aux hi horig hv ?_
    intro prev hcheck
    simp only [checkBlock, Bool.and_eq_true, decide_eq_true_eq] at hcheck
    obtain ⟨⟨-, c2⟩, -⟩ := hcheck
    have hx : ¬((withPrev orig p2).previousHash = prev.hash) := by
      show ¬(p2 = prev.hash)
      rw [← c2]
      exact hne
    simp [checkBlock, hx]
  · intro d2 hne
    refine tamper_invalid_aux hi horig hv ?_
    intro prev hcheck
    simp only [checkBlock, Bool.and_eq_true, decide_eq_true_eq] at hcheck
    obtain ⟨⟨c1, -⟩, -⟩ := hcheck
    have hx : ¬((withData orig d2).hash = calculateHash (withData orig d2)) := by
      show ¬(orig.hash = calculateHash (withData orig d2))
      rw [c1]
      exact fun he => hne he.symm
    simp [checkBlock, hx]

/-- Closed instance for C3: on the two-block difficulty-0 chain, replacing
block 1's stored digest, previousDigest, or payload each makes validation
fail. -/
theorem C3_witness :
    isChainValid (setBlock chain0 1 (withHash chain0block1 "x")) = false ∧
    isChainValid (setBlock chain0 1 (withPrev chain0block1 "y")) = false ∧
    isChainValid (setBlock chain0 1 (withData chain0block1 payloadB)) = false :=
  ⟨(C3_tamper_detected chain0 1 chain0block1 (by decide) rfl rfl).1 "x" (by decide),
   (C3_tamper_detected chain0 1 chain0block1 (by decide) rfl rfl).2.1 "y" (by decide),
   (C3_tamper_detected chain0 1 chain0block1 (by decide) rfl rfl).2.2 payloadB (by decide)⟩

/-- Claim C4 (counterexample to the claim as stated): constructing a Block
with a negative index, a non-positive difficulty (0) and an empty
previousDigest raises no error — mining at difficulty 0 has an empty
target, succeeds on the first iteration, and a Block is returned; no
InvalidConstructionInput (or any) validation exists in the constructor. -/
theorem C4_counterexample :
    (mkBlock (-1) payloadA "" 0 "2024-01-15T10:30:00.000Z" 1).isSome = true := by
  decide

/-- Claim C4 (amended): Block construction performs no input validation —
for every index (negative included), payload, previousDigest (empty
included) and timestamp, construction at difficulty 0 succeeds on the
first mining iteration and returns a block carrying exactly the given
field values; the invalid input is silently accepted, never rejected. -/
theorem C4_no_validation (index : Int) (data : Json) (prev now : String) :
    mkBlock index data prev 0 now 1 =
      some ⟨index, now, data, prev, 0, 0,
        sha256Hex (blockString index now data prev 0)⟩ := by
  have h0 : (sha256Hex (blockString index now data prev 0)).take 0 = targetString 0 := by
    rw [String.take_eq]
    rfl
  rw [mkBlock, mineFrom]
  simp [h0]

/-- Claim C5 (counterexample): two blocks agreeing on index, createdAt,
previousDigest and nonce, whose payloads are structurally equal as
key-value maps (the same two key-value pairs, opposite insertion orders),
produce different digests — `JSON.stringify` serializes object fields in
insertion order, not in a canonical key order. -/
theorem C5_counterexample :
    fieldsAB.Perm fieldsBA ∧ blockAB.index = blockBA.index ∧
    blockAB.timestamp = blockBA.timestamp ∧
    blockAB.previousHash = blockBA.previousHash ∧ blockAB.nonce = blockBA.nonce ∧
    calculateHash blockAB ≠ calculateHash blockBA :=
  ⟨by exact List.Perm.swap ("b", Json.num 2) ("a", Json.num 1) [], rfl, rfl, rfl, rfl, by decide⟩

/-- Claim C5 (amended): the digest depends on the payload only through its
serialized form — two blocks agreeing on index, createdAt, previousDigest,
nonce and on the `JSON.stringify` serialization of their payloads (same
keys bound to same values in the same insertion order) produce the same
digest. -/
theorem C5_serialization_determines_digest (b1 b2 : Block)
    (h1 : b1.index = b2.index) (h2 : b1.timestamp = b2.timestamp)
    (h3 : jsonStringify b1.data = jsonStringify b2.data)
    (h4 : b1.previousHash = b2.previousHash) (h5 : b1.nonce = b2.nonce) :
    calculateHash b1 = calculateHash b2 := by
  rw [calculateHash, calculateHash, blockString, blockString, h1, h2, h3, h4, h5]

/-- Closed instance for C5 (amended): two blocks with identical hashed
fields but different stored difficulty and stored hash have equal
recomputed digests. -/
theorem C5_witness :
    (blockW1.index = blockW2.index ∧ blockW1.timestamp = blockW2.timestamp ∧
      jsonStringify blockW1.data = jsonStringify blockW2.data ∧
      blockW1.previousHash = blockW2.previousHash ∧ blockW1.nonce = blockW2.nonce) ∧
    calculateHash blockW1 = calculateHash blockW2 :=
  ⟨⟨rfl, rfl, rfl, rfl, rfl⟩,
    C5_serialization_determines_digest blockW1 blockW2 rfl rfl rfl rfl rfl⟩

/-- Inversion for one step of `addBlocks`. -/
theorem addBlocks_cons {bc : Blockchain} {xd : Json} {xn : String}
    {xs : List (Json × String)} {fuel : Nat} {bc2 : Blockchain}
    (h : addBlocks bc ((xd, xn) :: xs) fuel = some bc2) :
    ∃ bmid, addBlock bc xd xn fuel = some bmid ∧ addBlocks bmid xs fuel = some bc2 := by
  rw [addBlocks] at h
  cases hstep : addBlock bc xd xn fuel with
  | none => rw [hstep] at h; simp at h
  | some bmid =>
      rw [hstep] at h
      exact ⟨bmid, rfl, h⟩

/-- Inversion for the empty `addBlocks`. -/
theorem addBlocks_nil {bc : Blockchain} {fuel : Nat} {bc2 : Blockchain}
    (h : addBlocks bc [] fuel = some bc2) : bc2 = bc := by
  rw [addBlocks] at h
  cases h
  rfl

/-- Claim C6: each append adds exactly one block whose previousDigest is
the previous head's stored digest and whose index is one more than the
head's — equal to the pre-append count whenever the head's index is
count − 1, as it is on chains built from genesis; in particular three
appends onto a freshly constructed chain give count 4 with
blocks[3].index = 3 and blocks[3].previousDigest = blocks[2].digest. -/
theorem C6_chain_growth :
    (∀ (bc : Blockchain) (data : Json) (now : String) (fuel : Nat)
        (bc' : Blockchain) (p : Block), getLatestBlock bc = some p →
        p.index = (getBlockCount bc : Int) - 1 →
        addBlock bc data now fuel = some bc' →
        getBlockCount bc' = getBlockCount bc + 1 ∧
          ∃ b, bc'.chain = bc.chain ++ [b] ∧ b.index = (getBlockCount bc : Int) ∧
            b.previousHash = p.hash) ∧
    (∀ (d : Nat) (tm tb : String) (f : Nat) (c0 : Blockchain) (p1 : Json)
        (t1 : String) (p2 : Json) (t2 : String) (p3 : Json) (t3 : String)
        (fa : Nat) (c3 : Blockchain), mkBlockchain d tm tb f = some c0 →
        addBlocks c0 [(p1, t1), (p2, t2), (p3, t3)] fa = some c3 →
        getBlockCount c3 = 4 ∧ ∃ b2 b3, c3.chain.get? 2 = some b2 ∧
          c3.chain.get? 3 = some b3 ∧ b3.index = 3 ∧ b3.previousHash = b2.hash) := by
  constructor
  · intro bc data now fuel bc' p hp hpi h
    obtain ⟨b, e, -, ib, lb, -, -⟩ := addBlock_some hp h
    refine ⟨?_, b, e, ?_, lb⟩
    · rw [getBlockCount, getBlockCount, e]
      simp
    · rw [ib, hpi]
      omega
  · intro d tm tb f c0 p1 t1 p2 t2 p3 t3 fa c3 h0 hl
    obtain ⟨g, hg, -, hgidx, -, -, -⟩ := mkBlockchain_some h0
    obtain ⟨c1, h1, hl⟩ := addBlocks_cons hl
    obtain ⟨c2, h2, hl⟩ := addBlocks_cons hl
    obtain ⟨c3x, h3, hl⟩ := addBlocks_cons hl
    cases addBlocks_nil hl
    have hp0 : getLatestBlock c0 = some g := by
      rw [getLatestBlock, hg]
      rfl
    obtain ⟨b1, e1, -, i1, -, -, -⟩ := addBlock_some hp0 h1
    have hc1 : c1.chain = [g, b1] := by rw [e1, hg]; rfl
    have hp1 : getLatestBlock c1 = some b1 := by
      rw [getLatestBlock, hc1]
      rfl
    obtain ⟨b2, e2, -, i2, -, -, -⟩ := addBlock_some hp1 h2
    have hc2 : c2.chain = [g, b1, b2] := by rw [e2, hc1]; rfl
    have hp2 : getLatestBlock c2 = some b2 := by
      rw [getLatestBlock, hc2]
      rfl
    obtain ⟨b3, e3, -, i3, l3, -, -⟩ := addBlock_some hp2 h3
    have hc3 : c3.chain = [g, b1, b2, b3] := by rw [e3, hc2]; rfl
    refine ⟨?_, b2, b3, ?_, ?_, ?_, l3⟩
    · rw [getBlockCount, hc3]
      rfl
    · rw [hc3]
      rfl
    · rw [hc3]
      rfl
    · omega

/-- Closed instance for C6: three appends onto the fresh difficulty-0
chain give a 4-block chain with blocks[3] correctly linked. -/
theorem C6_witness :
    mkBlockchain 0 "2024-01-15T10:30:00.000Z" "2024-01-15T10:30:00.001Z" 1 = some chain0g ∧
    addBlocks chain0g appends3 1 = some chain3 ∧ getBlockCount chain3 = 4 ∧
    (∃ b2 b3, chain3.chain.get? 2 = some b2 ∧ chain3.chain.get? 3 = some b3 ∧
      b3.index = 3 ∧ b3.previousHash = b2.hash) := by
  refine ⟨rfl, rfl, ?_, ?_⟩
  · exact (C6_chain_growth.2 0 "2024-01-15T10:30:00.000Z" "2024-01-15T10:30:00.001Z" 1
      chain0g payloadA "2024-01-15T10:30:00.003Z" payloadB "2024-01-15T10:30:00.004Z"
      payloadA "2024-01-15T10:30:00.005Z" 1 chain3 rfl rfl).1
  · exact (C6_chain_growth.2 0 "2024-01-15T10:30:00.000Z" "2024-01-15T10:30:00.001Z" 1
      chain0g payloadA "2024-01-15T10:30:00.003Z" payloadB "2024-01-15T10:30:00.004Z"
      payloadA "2024-01-15T10:30:00.005Z" 1 chain3 rfl rfl).2

/-- Claim C7: lookups are total over the query space — `getBlockByIndex`
returns a block exactly for integer number queries within `[0, length)`
(negative, out-of-range, and non-number inputs yield not-found, never an
error), and `getBlockByHash` yields not-found for an empty or null query
and whenever no block's digest matches. -/
theorem C7_lookup_total (bc : Blockchain) :
    (∀ i : Int, 0 ≤ i → i < (getBlockCount bc : Int) →
        getBlockByIndex bc (.num i) = bc.chain.get? i.toNat ∧
          (getBlockByIndex bc (.num i)).isSome = true) ∧
    (∀ q : JsValue, (∀ i : Int, q = .num i → i < 0 ∨ (getBlockCount bc : Int) ≤ i) →
        getBlockByIndex bc q = none) ∧
    getBlockByHash bc (.str "") = none ∧
    getBlockByHash bc .nullV = none ∧
    getBlockByHash bc .undefinedV = none ∧
    (∀ s : String, (∀ b ∈ bc.chain, b.hash ≠ s) → getBlockByHash bc (.str s) = none) := by
  refine ⟨?_, ?_, rfl, rfl, rfl, ?_⟩
  · intro i h0 hlt
    have hcond : ¬(i < 0 ∨ (bc.chain.length : Int) ≤ i) := by
      rw [getBlockCount] at hlt
      omega
    constructor
    · rw [getBlockByIndex, if_neg hcond]
    · rw [getBlockByIndex, if_neg hcond]
      have htl : i.toNat < bc.chain.length := by
        rw [getBlockCount] at hlt
        omega
      rw [List.get?_eq_get htl]
      rfl
  · intro q hq
    cases q with
    | num i =>
        have := hq i rfl
        rw [getBlockByIndex, if_pos]
        rw [getBlockCount] at this
        omega
    | str s => rfl
    | nullV => rfl
    | undefinedV => rfl
  · intro s hs
    rw [getBlockByHash]
    by_cases he : s = ""
    · rw [if_pos he]
    · rw [if_neg he]
      rw [List.find?_eq_none]
      intro b hb
      simp only [beq_iff_eq]
      exact hs b hb

/-- Closed instance for C7 on the two-block chain: in-range lookup found;
`-1`, `999` and a string index not found; empty, null and unmatched hash
queries not found. -/
theorem C7_witness :
    (getBlockByIndex chain0 (.num 1)).isSome = true ∧
    getBlockByIndex chain0 (.num (-1)) = none ∧
    getBlockByIndex chain0 (.num 999) = none ∧
    getBlockByIndex chain0 (.str "1") = none ∧
    getBlockByHash chain0 (.str "") = none ∧
    getBlockByHash chain0 .nullV = none ∧
    getBlockByHash chain0 (.str "no-such-digest") = none :=
  ⟨((C7_lookup_total chain0).1 1 (by decide) (by decide)).2,
   (C7_lookup_total chain0).2.1 (.num (-1)) (by intro i hi; cases hi; left; decide),
   (C7_lookup_total chain0).2.1 (.num 999) (by intro i hi; cases hi; right; decide),
   (C7_lookup_total chain0).2.1 (.str "1") (by intro i hi; cases hi),
   (C7_lookup_total chain0).2.2.1,
   (C7_lookup_total chain0).2.2.2.1,
   (C7_lookup_total chain0).2.2.2.2.2 "no-such-digest" (by decide)⟩

/-- Claim C8: `calculateHash` is a deterministic pure function of the five
hashed field values — blocks identical on (index, createdAt, payload,
previousDigest, nonce) have identical digests, regardless of any other
state (stored difficulty or stored hash included). -/
theorem C8_digest_deterministic (b1 b2 : Block) (h1 : b1.index = b2.index)
    (h2 : b1.timestamp = b2.timestamp) (h3 : b1.data = b2.data)
    (h4 : b1.previousHash = b2.previousHash) (h5 : b1.nonce = b2.nonce) :
    calculateHash b1 = calculateHash b2 := by
  rw [calculateHash, calculateHash, blockString, blockString, h1, h2, h3, h4, h5]

/-- Closed instance for C8: two blocks identical on the five hashed fields
but differing in stored difficulty and stored hash have equal digests. -/
theorem C8_witness :
    (blockW1.index = blockW2.index ∧ blockW1.timestamp = blockW2.timestamp ∧
      blockW1.data = blockW2.data ∧ blockW1.previousHash = blockW2.previousHash ∧
      blockW1.nonce = blockW2.nonce) ∧
    calculateHash blockW1 = calculateHash blockW2 :=
  ⟨⟨rfl, rfl, rfl, rfl, rfl⟩,
    C8_digest_deterministic blockW1 blockW2 rfl rfl rfl rfl rfl⟩

/-- Claim C9 (counterexample to the claim as stated): the validation
result does not depend only on the blocks at index 1 and upward.
`chain0badGenesis` agrees with the valid `chain0` on every block from
index 1 up — only the genesis block's stored digest differs — yet
validation flips from true to false, because block 1's link check reads
the genesis block's stored digest. -/
theorem C9_counterexample :
    chain0badGenesis.chain.tail = chain0.chain.tail ∧
    isChainValid chain0 = true ∧ isChainValid chain0badGenesis = false :=
  ⟨rfl, rfl, by decide⟩

/-- Claim C9 (amended): Validate never checks the genesis block itself —
no digest recomputation, difficulty prefix or previousDigest check is
applied to it, so any single-block chain validates, however ill-formed
its genesis; and the result reads the genesis block only through its
stored digest: chains agreeing on blocks 1 and upward and on the genesis
block's stored digest validate identically. -/
theorem C9_genesis_unchecked :
    (∀ (d : Nat) (b : Block), isChainValid ⟨[b], d⟩ = true) ∧
    (∀ (d : Nat) (g g2 : Block) (rest : List Block), g.hash = g2.hash →
        isChainValid ⟨g :: rest, d⟩ = isChainValid ⟨g2 :: rest, d⟩) := by
  constructor
  · intro d b
    rfl
  · intro d g g2 rest hh
    rw [isChainValid_eq _ g rest rfl, isChainValid_eq _ g2 rest rfl]
    cases rest with
    | nil => rfl
    | cons x xs => simp [validFrom, checkBlock, hh]

/-- Closed instance for C9 (amended): a single-block chain whose genesis
has a non-"0" previousDigest, the wrong difficulty and a non-digest
stored hash still validates; and two chains differing only in their
(equal-digest) genesis blocks validate identically. -/
theorem C9_witness :
    blankBlock.hash = blockAlt.hash ∧
    isChainValid ⟨[⟨7, "t", payloadA, "zzz", 0, 3, "not-a-digest"⟩], 3⟩ = true ∧
    isChainValid ⟨blankBlock :: chain0.chain.tail, 5⟩ =
      isChainValid ⟨blockAlt :: chain0.chain.tail, 5⟩ :=
  ⟨rfl, C9_genesis_unchecked.1 3 ⟨7, "t", payloadA, "zzz", 0, 3, "not-a-digest"⟩,
    C9_genesis_unchecked.2 5 blankBlock blockAlt chain0.chain.tail rfl⟩

/-- Claim C10: a chain is never empty — construction installs the genesis
block before returning (count ≥ 1), append grows the count by exactly one
(so count ≥ 1 is preserved; validation and the lookups are pure readers
of the chain in this embedding and cannot shrink it), and whenever
count ≥ 1 the head block read by append (`getLatestBlock`) is defined. -/
theorem C10_never_empty :
    (∀ (d : Nat) (tm tb : String) (f : Nat) (c : Blockchain),
        mkBlockchain d tm tb f = some c → 1 ≤ getBlockCount c) ∧
    (∀ (bc : Blockchain) (data : Json) (now : String) (f : Nat) (bc2 : Blockchain),
        addBlock bc data now f = some bc2 →
        getBlockCount bc2 = getBlockCount bc + 1 ∧ 1 ≤ getBlockCount bc2) ∧
    (∀ bc : Blockchain, 1 ≤ getBlockCount bc → (getLatestBlock bc).isSome = true) := by
  refine ⟨?_, ?_, ?_⟩
  · intro d tm tb f c h
    obtain ⟨g, hg, -, -, -, -, -⟩ := mkBlockchain_some h
    rw [getBlockCount, hg]
    simp
  · intro bc data now f bc2 h
    cases hp : getLatestBlock bc with
    | none =>
        rw [addBlock, hp] at h
        simp at h
    | some p =>
        obtain ⟨b, e, -, -, -, -, -⟩ := addBlock_some hp h
        constructor
        · rw [getBlockCount, getBlockCount, e]
          simp
        · rw [getBlockCount, e]
          simp
  · intro bc hc
    cases hch : bc.chain with
    | nil =>
        rw [getBlockCount, hch] at hc
        simp at hc
    | cons g rest =>
        rw [getLatestBlock, hch, getLast?_cons_eq]
        rfl

/-- Closed instance for C10: the fresh chain has count 1, one append gives
count 2, and the head block is defined. -/
theorem C10_witness :
    1 ≤ getBlockCount chain0g ∧
    (getBlockCount chain0 = getBlockCount chain0g + 1 ∧ 1 ≤ getBlockCount chain0) ∧
    (getLatestBlock chain0g).isSome = true :=
  ⟨C10_never_empty.1 0 "2024-01-15T10:30:00.000Z" "2024-01-15T10:30:00.001Z" 1 chain0g rfl,
   C10_never_empty.2.1 chain0g payloadA "2024-01-15T10:30:00.002Z" 1 chain0 rfl,
   C10_never_empty.2.2 chain0g (by decide)⟩

end NodeChain

